import Mathlib

/-!
Shallow embedding of the Telegram expense-bot ledger core (src/main.py):
cycle-key arithmetic over "YYYY-MM" strings, the SQLite aggregation
queries, the free-text transaction parser, and the in-memory pending-reset
confirmation machine.  Python semantics that matter are modelled
explicitly: `%04d` / `%02d` / `{:,}` formatting, `str.split("-")`,
`int(...)`, floor division and modulo, `datetime.date`'s year range
1..9999, and exceptions (as `Option` / explicit `raised` outcomes).
-/

namespace ExpenseBot

/-! ### Characters and decimal digit strings -/

/-- Whitespace, as stripped by Python `str.strip` and matched in the
`TX_PATTERN` regex (ASCII whitespace suffices for every string this
development touches). -/
def isWs (c : Char) : Bool := c.isWhitespace

/-- Decimal digit test, `[0-9]` in the regex. -/
def isDig (c : Char) : Bool := c.isDigit

/-- Fuelled decimal rendering of a natural number (most significant digit
first), mirroring Python `"%d" % n` for positive `n`; the fuel argument
only makes the recursion structural so that concrete values reduce in the
kernel. -/
def natStrGo : Nat → Nat → List Char
  | 0, _ => []
  | fuel + 1, n =>
    if n < 10 then [Nat.digitChar n]
    else natStrGo fuel (n / 10) ++ [Nat.digitChar (n % 10)]

/-- Decimal rendering of a natural number, `"%d" % n` (with `0 ↦ "0"`). -/
def natStr (n : Nat) : List Char := natStrGo (n + 1) n

/-- Left-pad with `'0'` to width `w` (no-op when already long enough);
building block of Python's `%04d` / `%02d`. -/
def padZeros (w : Nat) (l : List Char) : List Char :=
  List.replicate (w - l.length) '0' ++ l

/-- Python `f"{n:02d}"` for a natural number. -/
def pad2 (n : Nat) : List Char := padZeros 2 (natStr n)

/-- Python `f"{n:04d}"` for a natural number. -/
def pad4 (n : Nat) : List Char := padZeros 4 (natStr n)

/-- Python `f"{i:04d}"` for an integer: the minus sign counts towards the
field width of 4. -/
def fmtI4 (i : Int) : List Char :=
  if i < 0 then '-' :: padZeros 3 (natStr i.natAbs)
  else padZeros 4 (natStr i.toNat)

/-- Python `f"{i:02d}"` for an integer (sign counts towards the width). -/
def fmtI2 (i : Int) : List Char :=
  if i < 0 then '-' :: padZeros 1 (natStr i.natAbs)
  else padZeros 2 (natStr i.toNat)

/-- Value of a most-significant-first digit string. -/
def digitsToNat (l : List Char) : Nat :=
  l.foldl (fun a c => 10 * a + (c.toNat - 48)) 0

/-- Strip `isWs` characters from both ends, Python `str.strip()`. -/
def trimWs (l : List Char) : List Char :=
  ((l.dropWhile isWs).reverse.dropWhile isWs).reverse

/-- Python `int(s)` on a string: optional surrounding whitespace, an
optional sign, then a non-empty run of decimal digits; anything else
raises `ValueError` (modelled as `none`).  (Underscore digit grouping,
which Python would also accept, never occurs in this program's inputs and
is not modelled.) -/
def pyInt (l : List Char) : Option Int :=
  let t := trimWs l
  if t.head? = some '+' then
    if t.tail ≠ [] ∧ t.tail.all isDig then some (digitsToNat t.tail : Int) else none
  else if t.head? = some '-' then
    if t.tail ≠ [] ∧ t.tail.all isDig then some (-(digitsToNat t.tail : Int)) else none
  else
    if t ≠ [] ∧ t.all isDig then some (digitsToNat t : Int) else none

/-- Python `s.split("-")` (split on every `'-'`, keeping empty pieces). -/
def splitDashAux : List Char → List Char → List (List Char)
  | [], acc => [acc.reverse]
  | c :: rest, acc =>
      if c = '-' then acc.reverse :: splitDashAux rest []
      else splitDashAux rest (c :: acc)

/-- Python `s.split("-")`. -/
def splitDash (l : List Char) : List (List Char) := splitDashAux l []

/-! ### Calendar dates (`datetime.date`) -/

/-- A calendar date; `datetime.date` guarantees `Valid` below, which the
theorems carry as a hypothesis because `Date` itself is a raw triple. -/
structure Date where
  year : Nat
  month : Nat
  day : Nat
deriving DecidableEq

/-- Gregorian leap year. -/
def isLeap (y : Nat) : Bool :=
  (y % 4 = 0 && y % 100 ≠ 0) || y % 400 = 0

/-- Days in a month of the proleptic Gregorian calendar. -/
def daysInMonth (y m : Nat) : Nat :=
  if m = 2 then (if isLeap y then 29 else 28)
  else if m = 4 ∨ m = 6 ∨ m = 9 ∨ m = 11 then 30
  else 31

/-- The invariant `datetime.date` enforces (`MINYEAR = 1`,
`MAXYEAR = 9999`). -/
def Date.Valid (d : Date) : Prop :=
  1 ≤ d.year ∧ d.year ≤ 9999 ∧ 1 ≤ d.month ∧ d.month ≤ 12 ∧
    1 ≤ d.day ∧ d.day ≤ daysInMonth d.year d.month

instance (d : Date) : Decidable d.Valid := by
  unfold Date.Valid; infer_instance

/-- Python `date` comparison: lexicographic on (year, month, day). -/
def dateLe (a b : Date) : Prop :=
  a.year < b.year ∨ (a.year = b.year ∧
    (a.month < b.month ∨ (a.month = b.month ∧ a.day ≤ b.day)))

instance (a b : Date) : Decidable (dateLe a b) := by
  unfold dateLe; infer_instance

/-- Python `datetime.date(y, m, d)` with Python's validation: `none` models the
`ValueError` the constructor raises on out-of-range arguments. -/
def mkDate (y m d : Int) : Option Date :=
  if 1 ≤ y ∧ y ≤ 9999 ∧ 1 ≤ m ∧ m ≤ 12 ∧ 1 ≤ d ∧
      d ≤ (daysInMonth y.toNat m.toNat : Int)
  then some ⟨y.toNat, m.toNat, d.toNat⟩ else none

/-- Python `d - timedelta(days=1)` on a valid date.  (Python raises on
underflow below 0001-01-01; the program only ever subtracts from day-6
dates, so that branch is unreachable here.) -/
def predDate (d : Date) : Date :=
  if 1 < d.day then ⟨d.year, d.month, d.day - 1⟩
  else if 1 < d.month then ⟨d.year, d.month - 1, daysInMonth d.year (d.month - 1)⟩
  else ⟨d.year - 1, 12, 31⟩

/-! ### Cycle calculator (src/main.py lines 37, 58-91) -/

/-- Constant `CUTOFF_DAY = 6` (line 37): day 6 starts a new cycle. -/
def CUTOFF_DAY : Nat := 6

/-- The canonical cycle key `f"{y:04d}-{m:02d}"`. -/
def fmtKey (y m : Nat) : String := ⟨pad4 y ++ '-' :: pad2 m⟩

/-- Source `cycle_key_from_date` (lines 58-70): day ≥ 6 keeps the date's own
year-month, day 1-5 falls back to the previous month, with January
rolling to December of the previous year. -/
def cycle_key_from_date (d : Date) : String :=
  if CUTOFF_DAY ≤ d.day then fmtKey d.year d.month
  else if d.month = 1 then fmtKey (d.year - 1) 12
  else fmtKey d.year (d.month - 1)

/-- Python `y, m = map(int, key.split("-"))`: `none` models the `ValueError`
raised when the split does not produce exactly two integer pieces. -/
def parseKey (key : String) : Option (Int × Int) :=
  match splitDash key.data with
  | [a, b] =>
      match pyInt a, pyInt b with
      | some y, some m => some (y, m)
      | _, _ => none
  | _ => none

/-- Source `cycle_range_from_key` (lines 72-84): start = day 6 of the named
month, end = day 6 of the following month minus one day.  `none` models
the exceptions of `key.split` unpacking / `int` / `date`. -/
def cycle_range_from_key (key : String) : Option (Date × Date) :=
  match parseKey key with
  | none => none
  | some (y, m) =>
      match mkDate y m (CUTOFF_DAY : Int) with
      | none => none
      | some start =>
          let nxt : Int × Int := if m = 12 then (y + 1, 1) else (y, m + 1)
          match mkDate nxt.1 nxt.2 (CUTOFF_DAY : Int) with
          | none => none
          | some e => some (start, predDate e)

/-- Source `shift_cycle_key` (lines 86-91): linear month-index transform with
Python floor division / modulo, re-rendered through `%04d` / `%02d`. -/
def shift_cycle_key (key : String) (offsetMonths : Int) : Option String :=
  match parseKey key with
  | none => none
  | some (y, m) =>
      let total : Int := (y * 12 + (m - 1)) + offsetMonths
      some ⟨fmtI4 (total.fdiv 12) ++ '-' :: fmtI2 (total.fmod 12 + 1)⟩

/-! ### Ledger store and aggregator (src/main.py lines 102-176)

The two SQLite tables are modelled as append-only lists; list order is
insertion order, i.e. the `AUTOINCREMENT` id order the queries sort by. -/

/-- A row of the `transactions` table. -/
structure TxRow where
  chat_id : Int
  ts : String
  day_key : String
  cycle_key : String
  sign : String
  amount : Int
  detail : String
deriving DecidableEq

/-- A row of the `resets` table. -/
structure ResetRow where
  chat_id : Int
  cycle_key : String
  reset_ts : String
deriving DecidableEq

/-- The durable store. -/
structure DB where
  txs : List TxRow
  resets : List ResetRow
deriving DecidableEq

/-- SQLite `TEXT` comparison under the default BINARY collation:
bytewise, which on UTF-8 agrees with codepoint-lexicographic order. -/
def strLt : List Char → List Char → Bool
  | [], [] => false
  | [], _ :: _ => true
  | _ :: _, [] => false
  | a :: as, b :: bs => if a < b then true else if a = b then strLt as bs else false

/-- Comparison `ts > after_ts`, as SQLite compares the `ts` column. -/
def tsLt (a b : String) : Bool := strLt a.data b.data

/-- The `ts` clause of `sum_cycle`: Python's `if after_ts:` adds the
`AND ts > ?` filter only when `after_ts` is neither `None` nor the empty
string (truthiness). -/
def tsPass (after : Option String) (ts : String) : Bool :=
  match after with
  | none => true
  | some a => if a = "" then true else tsLt a ts

/-- The row set of the `sum_cycle` query (lines 139-152):
`WHERE chat_id=? AND cycle_key=?` plus the optional `ts` floor. -/
def cycleRows (txs : List TxRow) (chat : Int) (key : String)
    (after : Option String) : List TxRow :=
  txs.filter (fun r => r.chat_id == chat && r.cycle_key == key && tsPass after r.ts)

/-- SQL `SUM(CASE WHEN sign=s THEN amount ELSE 0 END)` with `COALESCE` 0. -/
def sumSign (s : String) (rows : List TxRow) : Int :=
  rows.foldl (fun a r => a + (if r.sign == s then r.amount else 0)) 0

/-- Source `sum_cycle` (lines 139-152): (income, expense) over the group+cycle
rows above the optional timestamp floor. -/
def sum_cycle (txs : List TxRow) (chat : Int) (key : String)
    (after : Option String) : Int × Int :=
  (sumSign "+" (cycleRows txs chat key after),
   sumSign "-" (cycleRows txs chat key after))

/-- The row set of the day queries: `WHERE chat_id=? AND day_key=?`. -/
def dayRows (db : DB) (chat : Int) (day : String) : List TxRow :=
  db.txs.filter (fun r => r.chat_id == chat && r.day_key == day)

/-- Source `list_today` (lines 154-163): `SELECT sign, amount, detail ... ORDER
BY id ASC`. -/
def list_today (db : DB) (chat : Int) (day : String) : List (String × Int × String) :=
  (dayRows db chat day).map (fun r => (r.sign, r.amount, r.detail))

/-- Source `sum_today` (lines 165-176): (income, expense) over the whole day,
with no reset-marker clause. -/
def sum_today (db : DB) (chat : Int) (day : String) : Int × Int :=
  (sumSign "+" (dayRows db chat day), sumSign "-" (dayRows db chat day))

/-- Source `get_last_reset_ts` (lines 132-137): `ORDER BY id DESC LIMIT 1`, i.e.
the last appended marker for that group+cycle. -/
def get_last_reset_ts (db : DB) (chat : Int) (key : String) : Option String :=
  ((db.resets.filter (fun r => r.chat_id == chat && r.cycle_key == key)).getLast?).map
    (fun r => r.reset_ts)

/-- SQL `INSERT INTO resets ...`: append-only. -/
def appendReset (db : DB) (r : ResetRow) : DB :=
  { txs := db.txs, resets := db.resets ++ [r] }

/-- The aggregation `month_cmd` performs (lines 308-311): latest marker,
then `sum_cycle` above it. -/
def month_balance (db : DB) (chat : Int) (key : String) : Int × Int :=
  sum_cycle db.txs chat key (get_last_reset_ts db chat key)

/-! ### Display formatting (src/main.py lines 55-56, 243-252, 306-319) -/

/-- Thousands grouping of a reversed digit string: commas every three
digits from the least significant end. -/
def group3Rev : List Char → List Char
  | [] => []
  | [a] => [a]
  | [a, b] => [a, b]
  | [a, b, c] => [a, b, c]
  | a :: b :: c :: rest => a :: b :: c :: ',' :: group3Rev rest

/-- Source `fmt` (lines 55-56), Python comma formatting: decimal with comma grouping, a
leading minus for negatives and no sign otherwise. -/
def fmt (n : Int) : String :=
  ⟨(if n < 0 then ['-'] else []) ++ (group3Rev (natStr n.natAbs).reverse).reverse⟩

/-- The net-balance fragment of the `/today` reply (lines 244-245):
`f"+{fmt(net)}"` when `net >= 0`, else `f"-{fmt(abs(net))}"`. -/
def today_net_str (income expense : Int) : String :=
  let net := income - expense
  if 0 ≤ net then "+" ++ fmt net else "-" ++ fmt |net|

/-- The net-balance fragment of the `/month` reply (line 318): plain
`fmt(bal)` with no explicit sign for non-negative values. -/
def month_net_str (income expense : Int) : String :=
  fmt (income - expense)

/-! ### Entry parser (src/main.py lines 43, 417-443)

`TX_PATTERN = r"^\s*([+-])?\s*(.*?)\s*([0-9][0-9,]*)\s*$"`, matched with
`re.match` against the stripped message text.  The backtracking search is
modelled directly: the lazy label grows one character at a time, and at
each position the greedy tail `\s*([0-9][0-9,]*)\s*$` either matches or
does not (greedy `\s*` before a digit and the maximal `[0-9][0-9,]*` run
are complete — shrinking them can never rescue a failed tail match). -/

/-- Class `[0-9,]`, the continuation class of the amount group. -/
def isAmtChar (c : Char) : Bool := isDig c || c = ','

/-- The tail `\s*([0-9][0-9,]*)\s*$` of `TX_PATTERN` at one position:
greedy `\s*`, then a digit-led maximal `[0-9][0-9,]*` run whose remainder
must be all whitespace; returns the amount group on success. -/
def txTail (rest : List Char) : Option (List Char) :=
  match rest.dropWhile isWs with
  | [] => none
  | c :: cs =>
      if isDig c then
        if ((c :: cs).dropWhile isAmtChar).all isWs then
          some ((c :: cs).takeWhile isAmtChar)
        else none
      else none

/-- The lazy label group `(.*?)` followed by `txTail`: the first (i.e.
shortest-label) position where the tail matches wins; returns
(label group, amount group). -/
def txSplit : List Char → List Char → Option (List Char × List Char)
  | labRev, [] =>
      match txTail [] with
      | some amt => some (labRev.reverse, amt)
      | none => none
  | labRev, c :: rest1 =>
      match txTail (c :: rest1) with
      | some amt => some (labRev.reverse, amt)
      | none => txSplit (c :: labRev) rest1

/-- The whole of `TX_PATTERN`: leading `\s*`, the optional greedy sign
group `([+-])?` (with its backtracking fallback to the unsigned reading),
greedy `\s*`, then label and amount.  Returns the three groups. -/
def txMatch (l : List Char) : Option (Option Char × List Char × List Char) :=
  match l.dropWhile isWs with
  | [] => none
  | c :: rest =>
      if c = '+' ∨ c = '-' then
        match txSplit [] (rest.dropWhile isWs) with
        | some (lab, amt) => some (some c, lab, amt)
        | none =>
            match txSplit [] (c :: rest) with
            | some (lab, amt) => some (none, lab, amt)
            | none => none
      else
        match txSplit [] (c :: rest) with
        | some (lab, amt) => some (none, lab, amt)
        | none => none

/-- A parsed transaction: `sign` is the stored `'+'`/`'-'` column value,
`amount` the non-negative integer, `detail` the label. -/
structure Tx where
  sign : String
  amount : Int
  detail : String
deriving DecidableEq

/-- The classification part of `record_tx` (lines 417-443): strip, ignore
commands (leading `/`), match `TX_PATTERN`, strip grouping commas from
the amount, `int(...)`, interpret a missing or `-` sign as expense and
`+` as income, and default an empty stripped label to `"-"`.  `none` is
"not a transaction" (silently ignored). -/
def parse_tx (text : String) : Option Tx :=
  if (trimWs text.data).head? = some '/' then none
  else
    match txMatch (trimWs text.data) with
    | none => none
    | some (signRaw, labRaw, amtCs) =>
        match pyInt (amtCs.filter (fun c => c ≠ ',')) with
        | none => none
        | some amount =>
            some ⟨if signRaw = some '+' then "+" else "-", amount,
              ⟨if trimWs labRaw = [] then ['-'] else trimWs labRaw⟩⟩

/-! ### Reset confirmation machine (src/main.py lines 45-46, 182-188,
321-400)

`PENDING_RESETS` is the process-local map keyed by (chat_id, user_id);
the handlers below are its only writers.  Replies are modelled as an
enumeration (their Thai text carries no further structure), and an
exception escaping a handler is the `raised` outcome. -/

/-- Constant `RESET_CONFIRM_TEXT` (line 45). -/
def RESET_CONFIRM_TEXT : String := "RESET"

/-- Constant `RESET_EXPIRE_SECONDS` (line 46). -/
def RESET_EXPIRE_SECONDS : Int := 60

/-- An aware `datetime` in the fixed +07:00 offset: `dateV` is what
`.date()` returns, `secs` places the instant on the time line (used by
comparisons and by `+ timedelta`), `iso` is what `.isoformat()` returns.
The embedded handlers never inspect `iso`'s internal format. -/
structure PyDateTime where
  dateV : Date
  secs : Int
  iso : String
deriving DecidableEq

/-- Python `now + timedelta(seconds=k)`.  Only the instant of the result is ever
consulted (it is stored as an expiry and compared with later `now`s), so
the date and iso fields are carried over unchanged. -/
def addSeconds (t : PyDateTime) (k : Int) : PyDateTime :=
  { dateV := t.dateV, secs := t.secs + k, iso := t.iso }

/-- A `ResetPending` record (lines 182-186). -/
structure ResetPending where
  chat_id : Int
  user_id : Int
  expires_at : PyDateTime
deriving DecidableEq

/-- The mutable process state: `PENDING_RESETS` plus the durable store. -/
structure BotState where
  pending : Int × Int → Option ResetPending
  db : DB

/-- The replies the reset flow can send. -/
inductive Reply where
  | resetPrompt
  | resetExpired
  | resetDone
deriving DecidableEq

/-- How a handler invocation ends: a normal return (for
`confirm_reset_if_needed`, with its boolean "handled" result) or an
uncaught exception. -/
inductive HandlerOutcome where
  | returned (handled : Bool) (reply : Option Reply)
  | raised
deriving DecidableEq

/-- Source `reset_cmd` (lines 321-340): computes the current cycle key and its
range for the prompt, then unconditionally overwrites the pending entry
with one expiring `RESET_EXPIRE_SECONDS` after `now`.  The range lookup
precedes the overwrite, so when it raises the pending table is left
untouched. -/
def reset_cmd (st : BotState) (chat user : Int) (now : PyDateTime) :
    BotState × HandlerOutcome :=
  match cycle_range_from_key (cycle_key_from_date now.dateV) with
  | none => (st, .raised)
  | some _ =>
      ({ pending := fun k =>
           if k = (chat, user) then
             some ⟨chat, user, addSeconds now RESET_EXPIRE_SECONDS⟩
           else st.pending k,
         db := st.db },
       .returned true (some .resetPrompt))

/-- Source `confirm_reset_if_needed` (lines 355-400): on the exact token with a
pending entry, either lazily evict an expired entry and report the lapsed
window, or evict it, append one reset marker at the cycle computed from
`now`, and report success.  The marker insert and the eviction precede
the success reply's range lookup, so they survive even when that lookup
raises. -/
def confirm_reset_if_needed (st : BotState) (chat user : Int) (text : String)
    (now : PyDateTime) : BotState × HandlerOutcome :=
  if ⟨trimWs text.data⟩ ≠ RESET_CONFIRM_TEXT then (st, .returned false none)
  else
    match st.pending (chat, user) with
    | none => (st, .returned false none)
    | some pending =>
        if pending.expires_at.secs < now.secs then
          ({ pending := fun k => if k = (chat, user) then none else st.pending k,
             db := st.db },
           .returned true (some .resetExpired))
        else
          match cycle_range_from_key (cycle_key_from_date now.dateV) with
          | none =>
              ({ pending := fun k => if k = (chat, user) then none else st.pending k,
                 db := appendReset st.db
                   ⟨chat, cycle_key_from_date now.dateV, now.iso⟩ },
               .raised)
          | some _ =>
              ({ pending := fun k => if k = (chat, user) then none else st.pending k,
                 db := appendReset st.db
                   ⟨chat, cycle_key_from_date now.dateV, now.iso⟩ },
               .returned true (some .resetDone))

/-! ### Concrete ledger states used by individual claim instances -/

/-- A one-expense ledger for the reset-marker asymmetry instance. -/
def c8db : DB :=
  ⟨[⟨1, "2026-01-10T12:00:00+07:00", "2026-01-10", "2026-01", "-", 50, "x"⟩], []⟩

/-- A reset marker later than the single entry of `c8db`. -/
def c8marker : ResetRow := ⟨1, "2026-01", "2026-01-11T00:00:00+07:00"⟩

/-- Two entries of one group and cycle with timestamps straddling "b". -/
def c2txs : List TxRow :=
  [⟨1, "a", "d", "k", "+", 3, "p"⟩, ⟨1, "c", "d", "k", "-", 4, "q"⟩]

/-- A pending reset for (chat 1, user 2) expiring at instant 100. -/
def c1pend : ResetPending := ⟨1, 2, ⟨⟨2026, 1, 10⟩, 100, "E"⟩⟩

/-- A state holding exactly `c1pend`. -/
def c1state : BotState :=
  ⟨fun k => if k = (1, 2) then some c1pend else none, ⟨[], []⟩⟩

/-- A confirmation instant before `c1pend`'s expiry. -/
def c1now : PyDateTime := ⟨⟨2026, 1, 10⟩, 50, "C"⟩

/-- An instant for the repeated confirmation attempt. -/
def c1later : PyDateTime := ⟨⟨2026, 1, 10⟩, 70, "L"⟩

/-- An old pending reset for (chat 1, user 2) expiring at instant 0. -/
def c9old : ResetPending := ⟨1, 2, ⟨⟨2026, 1, 10⟩, 0, "O"⟩⟩

/-- A state holding exactly `c9old`. -/
def c9state : BotState :=
  ⟨fun k => if k = (1, 2) then some c9old else none, ⟨[], []⟩⟩

/-- An instant whose date sits in the cycle whose range computation
raises (day ≥ 6 of December 9999). -/
def c9edgeNow : PyDateTime := ⟨⟨9999, 12, 6⟩, 1000, "N"⟩

/-- An ordinary instant. -/
def c9okNow : PyDateTime := ⟨⟨2026, 1, 10⟩, 1000, "K"⟩

/-! ### Helper lemmas: decimal rendering and parsing -/

theorem natStrGo_ne_nil (fuel n : Nat) (h : n < fuel) : natStrGo fuel n ≠ [] := by
  induction fuel generalizing n with
  | zero => omega
  | succ fuel ih =>
      unfold natStrGo
      by_cases h10 : n < 10
      · simp [h10]
      · simp only [if_neg h10]
        intro hc
        rcases List.append_eq_nil.mp hc with ⟨-, hc2⟩
        exact List.cons_ne_nil _ _ hc2

theorem digitChar_isDig (n : Nat) (h : n < 10) : isDig (Nat.digitChar n) = true := by
  interval_cases n <;> decide

theorem digitChar_val (n : Nat) (h : n < 10) : (Nat.digitChar n).toNat - 48 = n := by
  interval_cases n <;> decide

theorem natStrGo_digits (fuel n : Nat) (h : n < fuel) :
    ∀ c ∈ natStrGo fuel n, isDig c = true := by
  induction fuel generalizing n with
  | zero => omega
  | succ fuel ih =>
      unfold natStrGo
      by_cases h10 : n < 10
      · simp only [if_pos h10, List.mem_singleton]
        rintro c rfl
        exact digitChar_isDig n h10
      · simp only [if_neg h10, List.mem_append, List.mem_singleton]
        rintro c (hc | rfl)
        · exact ih (n / 10) (by have hx : n / 10 < n := Nat.div_lt_self (by omega) (by omega); omega) c hc
        · exact digitChar_isDig _ (Nat.mod_lt n (by omega))

theorem natStrGo_foldl (fuel n : Nat) (h : n < fuel) (a : Nat) :
    (natStrGo fuel n).foldl (fun a c => 10 * a + (c.toNat - 48)) a
      = a * 10 ^ (natStrGo fuel n).length + n := by
  induction fuel generalizing n a with
  | zero => omega
  | succ fuel ih =>
      unfold natStrGo
      by_cases h10 : n < 10
      · simp [if_pos h10, List.foldl, digitChar_val n h10]
        ring
      · simp only [if_neg h10, List.foldl_append, List.length_append, List.foldl,
          List.length_cons, List.length_nil]
        rw [ih (n / 10) (by have hx : n / 10 < n := Nat.div_lt_self (by omega) (by omega); omega) a]
        rw [digitChar_val (n % 10) (Nat.mod_lt n (by omega))]
        have hdm : 10 * (n / 10) + n % 10 = n := Nat.div_add_mod n 10
        have hp : 10 ^ ((natStrGo fuel (n / 10)).length + 1)
            = 10 ^ (natStrGo fuel (n / 10)).length * 10 := by
          rw [pow_succ]
        rw [hp]
        ring_nf
        omega

theorem natStr_ne_nil (n : Nat) : natStr n ≠ [] :=
  natStrGo_ne_nil (n + 1) n (Nat.lt_succ_self n)

theorem natStr_digits (n : Nat) : ∀ c ∈ natStr n, isDig c = true :=
  natStrGo_digits (n + 1) n (Nat.lt_succ_self n)

theorem digitsToNat_natStr (n : Nat) : digitsToNat (natStr n) = n := by
  unfold digitsToNat natStr
  rw [natStrGo_foldl (n + 1) n (Nat.lt_succ_self n) 0]
  simp

theorem padZeros_ne_nil (w : Nat) (l : List Char) (h : l ≠ []) : padZeros w l ≠ [] := by
  unfold padZeros
  intro hc
  exact h (List.append_eq_nil.mp hc).2

theorem padZeros_digits (w : Nat) (l : List Char) (h : ∀ c ∈ l, isDig c = true) :
    ∀ c ∈ padZeros w l, isDig c = true := by
  unfold padZeros
  intro c hc
  rcases List.mem_append.mp hc with hr | hl
  · have : c = '0' := List.eq_of_mem_replicate hr
    subst this; decide
  · exact h c hl

theorem foldl_zeros (k : Nat) :
    (List.replicate k '0').foldl (fun a c => 10 * a + (c.toNat - 48)) 0 = 0 := by
  induction k with
  | zero => rfl
  | succ k ih => simpa [List.replicate_succ, List.foldl] using ih

theorem digitsToNat_padZeros (w : Nat) (l : List Char) :
    digitsToNat (padZeros w l) = digitsToNat l := by
  unfold digitsToNat padZeros
  rw [List.foldl_append, foldl_zeros]

theorem isDig_ne_special (c : Char) (h : isDig c = true) :
    c ≠ '-' ∧ c ≠ '+' ∧ c ≠ ',' ∧ isWs c = false := by
  refine ⟨?_, ?_, ?_, ?_⟩
  · rintro rfl; exact absurd h (by decide)
  · rintro rfl; exact absurd h (by decide)
  · rintro rfl; exact absurd h (by decide)
  · unfold isWs Char.isWhitespace
    by_cases h1 : c = ' '
    · subst h1; exact absurd h (by decide)
    · by_cases h2 : c = '\t'
      · subst h2; exact absurd h (by decide)
      · by_cases h3 : c = '\r'
        · subst h3; exact absurd h (by decide)
        · by_cases h4 : c = '\n'
          · subst h4; exact absurd h (by decide)
          · simp [h1, h2, h3, h4]

theorem dropWhile_isWs_of_digits (l : List Char) (h : ∀ c ∈ l, isDig c = true) :
    l.dropWhile isWs = l := by
  cases l with
  | nil => rfl
  | cons c cs =>
      have := (isDig_ne_special c (h c (List.mem_cons_self c cs))).2.2.2
      simp [List.dropWhile, this]

theorem trimWs_of_digits (l : List Char) (h : ∀ c ∈ l, isDig c = true) :
    trimWs l = l := by
  unfold trimWs
  rw [dropWhile_isWs_of_digits l h,
    dropWhile_isWs_of_digits l.reverse (by intro c hc; exact h c (List.mem_reverse.mp hc)),
    List.reverse_reverse]

theorem pyInt_digits (l : List Char) (hne : l ≠ []) (h : ∀ c ∈ l, isDig c = true) :
    pyInt l = some (digitsToNat l : Int) := by
  unfold pyInt
  rw [trimWs_of_digits l h]
  cases l with
  | nil => exact absurd rfl hne
  | cons c cs =>
      have hd := h c (List.mem_cons_self c cs)
      have hspec := isDig_ne_special c hd
      have hall : (c :: cs).all isDig = true := by
        rw [List.all_eq_true]; exact h
      have h1 : (c :: cs).head? ≠ some '+' := by
        intro hx
        exact hspec.2.1 (Option.some.inj hx)
      have h2 : (c :: cs).head? ≠ some '-' := by
        intro hx
        exact hspec.1 (Option.some.inj hx)
      rw [if_neg h1, if_neg h2, if_pos ⟨List.cons_ne_nil c cs, hall⟩]

theorem pyInt_padded (w n : Nat) : pyInt (padZeros w (natStr n)) = some (n : Int) := by
  rw [pyInt_digits _ (padZeros_ne_nil w _ (natStr_ne_nil n)) (padZeros_digits w _ (natStr_digits n)),
    digitsToNat_padZeros, digitsToNat_natStr]

/-! ### Helper lemmas: splitting on the dash -/

theorem splitDashAux_no_dash (l acc : List Char) (h : ∀ c ∈ l, c ≠ '-') :
    splitDashAux l acc = [acc.reverse ++ l] := by
  induction l generalizing acc with
  | nil => simp [splitDashAux]
  | cons c cs ih =>
      simp only [splitDashAux]
      rw [if_neg (h c (List.mem_cons_self c cs))]
      rw [ih (c :: acc) (fun x hx => h x (List.mem_cons_of_mem c hx))]
      simp

theorem splitDashAux_dash (l1 l2 acc : List Char) (h : ∀ c ∈ l1, c ≠ '-') :
    splitDashAux (l1 ++ '-' :: l2) acc = (acc.reverse ++ l1) :: splitDashAux l2 [] := by
  induction l1 generalizing acc with
  | nil =>
      rw [List.nil_append]
      simp [splitDashAux]
  | cons c cs ih =>
      rw [List.cons_append]
      simp only [splitDashAux]
      rw [if_neg (h c (List.mem_cons_self c cs))]
      rw [ih (c :: acc) (fun x hx => h x (List.mem_cons_of_mem c hx))]
      simp

theorem splitDash_two (l1 l2 : List Char) (h1 : ∀ c ∈ l1, c ≠ '-')
    (h2 : ∀ c ∈ l2, c ≠ '-') :
    splitDash (l1 ++ '-' :: l2) = [l1, l2] := by
  unfold splitDash
  rw [splitDashAux_dash l1 l2 [] h1, splitDashAux_no_dash l2 [] h2]
  simp

theorem parseKey_padded (y m wy wm : Nat) :
    parseKey ⟨padZeros wy (natStr y) ++ '-' :: padZeros wm (natStr m)⟩
      = some ((y : Int), (m : Int)) := by
  unfold parseKey
  have hd1 : ∀ c ∈ padZeros wy (natStr y), c ≠ '-' :=
    fun c hc => (isDig_ne_special c (padZeros_digits wy _ (natStr_digits y) c hc)).1
  have hd2 : ∀ c ∈ padZeros wm (natStr m), c ≠ '-' :=
    fun c hc => (isDig_ne_special c (padZeros_digits wm _ (natStr_digits m) c hc)).1
  have hsp : splitDash (String.mk (padZeros wy (natStr y) ++ '-' :: padZeros wm (natStr m))).data
      = [padZeros wy (natStr y), padZeros wm (natStr m)] := by
    exact splitDash_two _ _ hd1 hd2
  rw [hsp]
  simp [pyInt_padded wy y, pyInt_padded wm m]

theorem parseKey_fmtKey (y m : Nat) : parseKey (fmtKey y m) = some ((y : Int), (m : Int)) :=
  parseKey_padded y m 4 2

/-! ### Helper lemmas: cycle ranges -/

theorem daysInMonth_ge (y m : Nat) : 28 ≤ daysInMonth y m := by
  unfold daysInMonth
  split_ifs <;> omega

theorem mkDate_natCast (y m d : Nat) (h1 : 1 ≤ y) (h2 : y ≤ 9999) (h3 : 1 ≤ m)
    (h4 : m ≤ 12) (h5 : 1 ≤ d) (h6 : d ≤ daysInMonth y m) :
    mkDate (y : Int) (m : Int) (d : Int) = some ⟨y, m, d⟩ := by
  unfold mkDate
  rw [if_pos]
  · simp
  · simp only [Int.toNat_natCast]
    refine ⟨?_, ?_, ?_, ?_, ?_, ?_⟩ <;> omega

theorem cycle_range_fmtKey (y m : Nat) (hy1 : 1 ≤ y) (hy2 : y ≤ 9999) (hm1 : 1 ≤ m)
    (hm2 : m ≤ 12) (hedge : ¬(y = 9999 ∧ m = 12)) :
    cycle_range_from_key (fmtKey y m) =
      some (⟨y, m, 6⟩, if m = 12 then ⟨y + 1, 1, 5⟩ else ⟨y, m + 1, 5⟩) := by
  have hd6 : ∀ a b : Nat, 6 ≤ daysInMonth a b :=
    fun a b => le_trans (by omega) (daysInMonth_ge a b)
  unfold cycle_range_from_key
  rw [parseKey_fmtKey]
  simp only [CUTOFF_DAY, Nat.cast_ofNat]
  rw [show (6 : Int) = ((6 : Nat) : Int) from rfl]
  rw [mkDate_natCast y m 6 hy1 hy2 hm1 hm2 (by omega) (hd6 y m)]
  by_cases h12 : m = 12
  · subst h12
    have hy : y ≠ 9999 := fun h => hedge ⟨h, rfl⟩
    rw [if_pos (by exact_mod_cast rfl)]
    have hc : ((y : Int) + 1) = ((y + 1 : Nat) : Int) := by push_cast; ring
    rw [hc, show ((1 : Int)) = ((1 : Nat) : Int) from rfl]
    rw [mkDate_natCast (y + 1) 1 6 (by omega) (by omega) (by omega) (by omega) (by omega)
      (hd6 (y + 1) 1)]
    simp [predDate]
  · rw [if_neg (by exact_mod_cast h12)]
    have hc : ((m : Int) + 1) = ((m + 1 : Nat) : Int) := by push_cast; ring
    rw [hc]
    rw [mkDate_natCast y (m + 1) 6 hy1 hy2 (by omega) (by omega) (by omega) (hd6 y (m + 1))]
    simp [predDate, h12]

/-! ### Helper lemmas: shifting cycle keys -/

theorem fmtI4_natCast (a : Nat) : fmtI4 (a : Int) = padZeros 4 (natStr a) := by
  unfold fmtI4
  rw [if_neg (by omega), Int.toNat_natCast]

theorem fmtI2_natCast (a : Nat) : fmtI2 (a : Int) = padZeros 2 (natStr a) := by
  unfold fmtI2
  rw [if_neg (by omega), Int.toNat_natCast]

theorem shift_roundtrip (y m : Nat) (n : Int) (hm1 : 1 ≤ m) (hm2 : m ≤ 12)
    (htot : 0 ≤ (y : Int) * 12 + ((m : Int) - 1) + n) :
    (shift_cycle_key (fmtKey y m) n).bind (fun k => shift_cycle_key k (-n))
      = some (fmtKey y m) := by
  have step1 : shift_cycle_key (fmtKey y m) n
      = some ⟨fmtI4 (((y : Int) * 12 + ((m : Int) - 1) + n).fdiv 12)
          ++ '-' :: fmtI2 (((y : Int) * 12 + ((m : Int) - 1) + n).fmod 12 + 1)⟩ := by
    unfold shift_cycle_key
    rw [parseKey_fmtKey]
  rw [step1, Option.some_bind]
  set T : Int := (y : Int) * 12 + ((m : Int) - 1) + n with hTdef
  have hq0 : 0 ≤ T.fdiv 12 := Int.fdiv_nonneg htot (by norm_num)
  have hr0 : 0 ≤ T.fmod 12 := Int.fmod_nonneg' T (by norm_num)
  have hr12 : T.fmod 12 < 12 := Int.fmod_lt_of_pos T (by norm_num)
  have hid : 12 * T.fdiv 12 + T.fmod 12 = T := Int.fdiv_add_fmod T 12
  have hf4 : fmtI4 (T.fdiv 12) = padZeros 4 (natStr (T.fdiv 12).toNat) := by
    rw [← Int.toNat_of_nonneg hq0, fmtI4_natCast, Int.toNat_natCast]
  have hf2 : fmtI2 (T.fmod 12 + 1) = padZeros 2 (natStr (T.fmod 12 + 1).toNat) := by
    rw [← Int.toNat_of_nonneg (by omega : 0 ≤ T.fmod 12 + 1), fmtI2_natCast,
      Int.toNat_natCast]
  rw [hf4, hf2]
  have step2 : shift_cycle_key
      ⟨padZeros 4 (natStr (T.fdiv 12).toNat) ++ '-' :: padZeros 2 (natStr (T.fmod 12 + 1).toNat)⟩
      (-n)
      = some ⟨fmtI4 (((((T.fdiv 12).toNat : Int)) * 12 + ((((T.fmod 12 + 1).toNat : Int)) - 1)
            + -n).fdiv 12)
          ++ '-' :: fmtI2 (((((T.fdiv 12).toNat : Int)) * 12 + ((((T.fmod 12 + 1).toNat : Int)) - 1)
            + -n).fmod 12 + 1)⟩ := by
    unfold shift_cycle_key
    rw [parseKey_padded (T.fdiv 12).toNat (T.fmod 12 + 1).toNat 4 2]
  rw [step2]
  rw [Int.toNat_of_nonneg hq0, Int.toNat_of_nonneg (by omega : 0 ≤ T.fmod 12 + 1)]
  have htot2 : T.fdiv 12 * 12 + (T.fmod 12 + 1 - 1) + -n = (y : Int) * 12 + ((m : Int) - 1) := by
    omega
  rw [htot2]
  have e1 : ((y : Int) * 12 + ((m : Int) - 1)).fdiv 12 = (y : Int) := by
    rw [Int.fdiv_eq_ediv _ (by norm_num)]
    omega
  have e2 : ((y : Int) * 12 + ((m : Int) - 1)).fmod 12 = (m : Int) - 1 := by
    rw [Int.fmod_eq_emod _ (by norm_num)]
    omega
  rw [e1, e2, show ((m : Int) - 1) + 1 = (m : Int) from by ring, fmtI4_natCast,
    fmtI2_natCast]
  rfl

/-! ### Helper lemmas: the entry parser -/

theorem trimWs_subset (l : List Char) (c : Char) (hc : c ∈ trimWs l) : c ∈ l := by
  unfold trimWs at hc
  rw [List.mem_reverse] at hc
  have h1 := (List.dropWhile_sublist isWs).subset hc
  rw [List.mem_reverse] at h1
  exact (List.dropWhile_sublist isWs).subset h1

theorem pyInt_nonneg (l : List Char) (v : Int) (hnd : '-' ∉ l) (h : pyInt l = some v) :
    0 ≤ v := by
  unfold pyInt at h
  by_cases h1 : (trimWs l).head? = some '+'
  · rw [if_pos h1] at h
    by_cases h2 : (trimWs l).tail ≠ [] ∧ (trimWs l).tail.all isDig
    · rw [if_pos h2] at h
      cases h
      exact Int.natCast_nonneg _
    · rw [if_neg h2] at h
      cases h
  · rw [if_neg h1] at h
    by_cases h2 : (trimWs l).head? = some '-'
    · exact absurd (trimWs_subset l '-' (List.mem_of_mem_head? h2)) hnd
    · rw [if_neg h2] at h
      by_cases h3 : trimWs l ≠ [] ∧ (trimWs l).all isDig
      · rw [if_pos h3] at h
        cases h
        exact Int.natCast_nonneg _
      · rw [if_neg h3] at h
        cases h

theorem txTail_amtChars (rest amt : List Char) (h : txTail rest = some amt) :
    ∀ c ∈ amt, isAmtChar c = true := by
  unfold txTail at h
  split at h
  · cases h
  · split at h
    · split at h
      · cases h
        intro x hx
        exact List.mem_takeWhile_imp hx
      · cases h
    · cases h

theorem txSplit_amtChars (rest labRev lab amt : List Char)
    (h : txSplit labRev rest = some (lab, amt)) : ∀ c ∈ amt, isAmtChar c = true := by
  induction rest generalizing labRev with
  | nil =>
      unfold txSplit at h
      split at h
      · rename_i heq
        cases h
        exact txTail_amtChars [] amt heq
      · cases h
  | cons c cs ih =>
      unfold txSplit at h
      split at h
      · rename_i heq
        cases h
        exact txTail_amtChars (c :: cs) amt heq
      · exact ih (c :: labRev) h

theorem txMatch_amtChars (l : List Char) (s : Option Char) (lab amt : List Char)
    (h : txMatch l = some (s, lab, amt)) : ∀ c ∈ amt, isAmtChar c = true := by
  unfold txMatch at h
  split at h
  · cases h
  · split at h
    · split at h
      · rename_i heq
        cases h
        exact txSplit_amtChars _ _ _ _ heq
      · split at h
        · rename_i heq
          cases h
          exact txSplit_amtChars _ _ _ _ heq
        · cases h
    · split at h
      · rename_i heq
        cases h
        exact txSplit_amtChars _ _ _ _ heq
      · cases h

theorem parse_tx_sound (text : String) (r : Tx) (h : parse_tx text = some r) :
    r.detail ≠ "" ∧ 0 ≤ r.amount ∧ (r.sign = "+" ∨ r.sign = "-") := by
  unfold parse_tx at h
  split at h
  · cases h
  · split at h
    · cases h
    · rename_i signRaw labRaw amtCs hm
      split at h
      · cases h
      · rename_i amount hp
        cases h
        refine ⟨?_, ?_, ?_⟩
        · by_cases hl : trimWs labRaw = []
          · simp only [hl, if_pos]
            intro hc
            have hdata : (['-'] : List Char) = [] := congrArg String.data hc
            cases hdata
          · simp only [if_neg hl]
            intro hc
            exact hl (congrArg String.data hc)
        · refine pyInt_nonneg _ _ ?_ hp
          intro hmem
          have h1 := List.mem_filter.mp hmem
          have h2 := txMatch_amtChars _ _ _ _ hm '-' h1.1
          unfold isAmtChar at h2
          rw [Bool.or_eq_true] at h2
          rcases h2 with h2 | h2
          · exact absurd h2 (by decide)
          · have h3 : ('-' : Char) = ',' := of_decide_eq_true h2
            exact absurd h3 (by decide)
        · by_cases hs : signRaw = some '+'
          · left
            simp [hs]
          · right
            simp [hs]

/-! ### Helper lemmas: cycle aggregation -/

theorem tsPass_some (T ts : String) (hT : T ≠ "") : tsPass (some T) ts = tsLt T ts := by
  show (if T = "" then true else tsLt T ts) = tsLt T ts
  rw [if_neg hT]

theorem cycleRows_none (txs : List TxRow) (chat : Int) (key : String) :
    cycleRows txs chat key none
      = txs.filter (fun r => r.chat_id == chat && r.cycle_key == key) := by
  unfold cycleRows
  apply List.filter_congr
  intro r _
  unfold tsPass
  rw [Bool.and_true]

theorem cycleRows_some (txs : List TxRow) (chat : Int) (key T : String) (hT : T ≠ "") :
    cycleRows txs chat key (some T)
      = (cycleRows txs chat key none).filter (fun r => tsLt T r.ts) := by
  unfold cycleRows
  rw [List.filter_filter]
  apply List.filter_congr
  intro r _
  rw [tsPass_some T r.ts hT]
  unfold tsPass
  rw [Bool.and_true, Bool.and_comm (tsLt T r.ts)]

theorem cycleRows_pre_filter (txs : List TxRow) (chat : Int) (key T : String) (hT : T ≠ "") :
    cycleRows (txs.filter (fun r => tsLt T r.ts)) chat key none
      = cycleRows txs chat key (some T) := by
  rw [cycleRows_none, List.filter_filter, cycleRows_some txs chat key T hT, cycleRows_none,
    List.filter_filter]
  exact List.filter_congr (fun r _ => Bool.and_comm _ _)

/-! ### Helper lemmas: the reset confirmation machine -/

theorem confirm_nopending (st : BotState) (chat user : Int) (text : String)
    (now : PyDateTime) (h : st.pending (chat, user) = none) :
    confirm_reset_if_needed st chat user text now = (st, .returned false none) := by
  unfold confirm_reset_if_needed
  by_cases ht : (⟨trimWs text.data⟩ : String) ≠ RESET_CONFIRM_TEXT
  · rw [if_pos ht]
  · rw [if_neg ht]
    simp only [h]

theorem confirm_valid_state (st : BotState) (chat user : Int) (text : String)
    (now : PyDateTime) (p : ResetPending)
    (hpend : st.pending (chat, user) = some p)
    (htext : (⟨trimWs text.data⟩ : String) = RESET_CONFIRM_TEXT)
    (hv : now.secs ≤ p.expires_at.secs) :
    (confirm_reset_if_needed st chat user text now).1
      = ⟨fun k => if k = (chat, user) then none else st.pending k,
         appendReset st.db ⟨chat, cycle_key_from_date now.dateV, now.iso⟩⟩ := by
  unfold confirm_reset_if_needed
  rw [if_neg (not_not_intro htext)]
  simp only [hpend]
  rw [if_neg (by omega : ¬ p.expires_at.secs < now.secs)]
  split <;> rfl

theorem confirm_expired_eq (st : BotState) (chat user : Int) (text : String)
    (now : PyDateTime) (p : ResetPending)
    (hpend : st.pending (chat, user) = some p)
    (htext : (⟨trimWs text.data⟩ : String) = RESET_CONFIRM_TEXT)
    (hexp : p.expires_at.secs < now.secs) :
    confirm_reset_if_needed st chat user text now
      = (⟨fun k => if k = (chat, user) then none else st.pending k, st.db⟩,
         .returned true (some .resetExpired)) := by
  unfold confirm_reset_if_needed
  rw [if_neg (not_not_intro htext)]
  simp only [hpend]
  rw [if_pos hexp]

/-! ### Helper lemmas: comma-grouped display -/

theorem group3Rev_subset : ∀ (l : List Char), ∀ c ∈ group3Rev l, c ∈ l ∨ c = ','
  | [] => by simp [group3Rev]
  | [a] => by simp [group3Rev]
  | [a, b] => by simp [group3Rev]
  | [a, b, c] => by simp [group3Rev]
  | a :: b :: c :: d :: rest => by
      intro x hx
      simp only [group3Rev, List.mem_cons] at hx
      rcases hx with rfl | rfl | rfl | rfl | hx
      · simp
      · simp
      · simp
      · right; rfl
      · rcases group3Rev_subset (d :: rest) x hx with hm | hm
        · left
          simp only [List.mem_cons] at hm ⊢
          tauto
        · right; exact hm

theorem fmt_head_neg (n : Int) (h : n < 0) : (fmt n).data.head? = some '-' := by
  unfold fmt
  rw [if_pos h]
  rfl

theorem fmt_head_not_plus (n : Int) (h : 0 ≤ n) : (fmt n).data.head? ≠ some '+' := by
  unfold fmt
  rw [if_neg (by omega)]
  intro hx
  have hmem : '+' ∈ (([] : List Char) ++ (group3Rev (natStr n.natAbs).reverse).reverse) :=
    List.mem_of_mem_head? hx
  rw [List.nil_append, List.mem_reverse] at hmem
  rcases group3Rev_subset _ _ hmem with hm | hm
  · rw [List.mem_reverse] at hm
    exact absurd (natStr_digits n.natAbs '+' hm) (by decide)
  · exact absurd hm (by decide)

theorem dateLe_mk (y1 m1 d1 y2 m2 d2 : Nat) :
    dateLe ⟨y1, m1, d1⟩ ⟨y2, m2, d2⟩ ↔
      (y1 < y2 ∨ (y1 = y2 ∧ (m1 < m2 ∨ (m1 = m2 ∧ d1 ≤ d2)))) := Iff.rfl

/-! ### Claim theorems -/

/-- C3: for every valid date `d`, `cycle_key_from_date d` is the canonical
"YYYY-MM" key of `d`'s own year and month when `d.day ≥ 6` (the cutoff
day), of the previous calendar month when `d.day < 6`, and January rolls
over to December of the previous year. -/
theorem claim_c3 (d : Date) (_hv : d.Valid) :
    (CUTOFF_DAY ≤ d.day → cycle_key_from_date d = fmtKey d.year d.month)
    ∧ (d.day < CUTOFF_DAY → d.month = 1 → cycle_key_from_date d = fmtKey (d.year - 1) 12)
    ∧ (d.day < CUTOFF_DAY → 2 ≤ d.month → cycle_key_from_date d = fmtKey d.year (d.month - 1)) := by
  refine ⟨?_, ?_, ?_⟩
  · intro h
    unfold cycle_key_from_date
    rw [if_pos h]
  · intro h hm
    unfold cycle_key_from_date
    rw [if_neg (by omega), if_pos hm]
  · intro h hm
    unfold cycle_key_from_date
    rw [if_neg (by omega), if_neg (by omega)]

/-- C3 witness: the date 2026-02-03 (day 3 < 6, month 2) maps to the
previous month's key, "2026-01". -/
theorem claim_c3_witness :
    Date.Valid ⟨2026, 2, 3⟩ ∧ cycle_key_from_date ⟨2026, 2, 3⟩ = fmtKey 2026 1 :=
  ⟨by decide, (claim_c3 ⟨2026, 2, 3⟩ (by decide)).2.2 (by decide) (by decide)⟩

/-- C4 (amended): for every canonical key of a real year-month other than
9999-12, `cycle_range_from_key` returns start = day 6 of that month and
inclusive end = day 5 of the following month, with December rolling to
January of the next year.  (At "9999-12" the following month's date
exceeds Python's year range and the call raises instead.) -/
theorem claim_c4 (y m : Nat) (hy1 : 1 ≤ y) (hy2 : y ≤ 9999) (hm1 : 1 ≤ m)
    (hm2 : m ≤ 12) (hedge : ¬(y = 9999 ∧ m = 12)) :
    cycle_range_from_key (fmtKey y m) =
      some (⟨y, m, CUTOFF_DAY⟩,
        if m = 12 then ⟨y + 1, 1, CUTOFF_DAY - 1⟩ else ⟨y, m + 1, CUTOFF_DAY - 1⟩) :=
  cycle_range_fmtKey y m hy1 hy2 hm1 hm2 hedge

/-- C4 counterexample: "9999-12" is a well-formed cycle key, yet
`cycle_range_from_key` returns no range at all (Python raises computing
`date(10000, 1, 6)`), contradicting the claim's "for every well-formed
cycle key". -/
theorem claim_c4_cex : cycle_range_from_key "9999-12" = none := by decide

/-- C4 witness: the range of "2026-01" is [2026-01-06, 2026-02-05]. -/
theorem claim_c4_witness :
    ((1 : Nat) ≤ 2026 ∧ (2026 : Nat) ≤ 9999 ∧ (1 : Nat) ≤ 1 ∧ (1 : Nat) ≤ 12
      ∧ ¬((2026 : Nat) = 9999 ∧ (1 : Nat) = 12))
    ∧ cycle_range_from_key (fmtKey 2026 1)
        = some (⟨2026, 1, CUTOFF_DAY⟩, ⟨2026, 2, CUTOFF_DAY - 1⟩) :=
  ⟨by decide,
   claim_c4 2026 1 (by decide) (by decide) (by decide) (by decide) (by decide)⟩

/-- C5 (amended): every valid date from 0001-01-06 through 9999-12-05
lies within the inclusive range of its own cycle key.  (Dates before
0001-01-06 or after 9999-12-05 belong to the cycles "0000-12" and
"9999-12", whose range computation raises.) -/
theorem claim_c5 (d : Date) (hv : d.Valid) (hlo : dateLe ⟨1, 1, CUTOFF_DAY⟩ d)
    (hhi : dateLe d ⟨9999, 12, CUTOFF_DAY - 1⟩) :
    ∃ s e, cycle_range_from_key (cycle_key_from_date d) = some (s, e)
      ∧ dateLe s d ∧ dateLe d e := by
  obtain ⟨y, m, day⟩ := d
  have h1 : 1 ≤ y := hv.1
  have h2 : y ≤ 9999 := hv.2.1
  have h3 : 1 ≤ m := hv.2.2.1
  have h4 : m ≤ 12 := hv.2.2.2.1
  have h5 : 1 ≤ day := hv.2.2.2.2.1
  rw [dateLe_mk] at hlo hhi
  simp only [CUTOFF_DAY] at hlo hhi
  by_cases hd : 6 ≤ day
  · have hkey : cycle_key_from_date ⟨y, m, day⟩ = fmtKey y m := by
      simp [cycle_key_from_date, CUTOFF_DAY, hd]
    have hedge : ¬(y = 9999 ∧ m = 12) := by
      rintro ⟨rfl, rfl⟩
      rcases hhi with h | ⟨-, h | ⟨-, h⟩⟩ <;> omega
    rw [hkey, cycle_range_fmtKey y m h1 h2 h3 h4 hedge]
    by_cases h12 : m = 12
    · subst h12
      rw [if_pos rfl]
      refine ⟨⟨y, 12, 6⟩, ⟨y + 1, 1, 5⟩, rfl, ?_, ?_⟩
      · rw [dateLe_mk]
        omega
      · rw [dateLe_mk]
        omega
    · rw [if_neg h12]
      refine ⟨⟨y, m, 6⟩, ⟨y, m + 1, 5⟩, rfl, ?_, ?_⟩
      · rw [dateLe_mk]
        omega
      · rw [dateLe_mk]
        omega
  · by_cases hm1 : m = 1
    · subst hm1
      have hy2 : 2 ≤ y := by
        by_contra hc
        have hy1 : y = 1 := by omega
        subst hy1
        rcases hlo with h | ⟨-, h | ⟨-, h⟩⟩ <;> omega
      have hkey : cycle_key_from_date ⟨y, 1, day⟩ = fmtKey (y - 1) 12 := by
        simp [cycle_key_from_date, CUTOFF_DAY, hd]
      rw [hkey,
        cycle_range_fmtKey (y - 1) 12 (by omega) (by omega) (by omega) (by omega)
          (by rintro ⟨hh, -⟩; omega),
        if_pos rfl]
      refine ⟨⟨y - 1, 12, 6⟩, ⟨y - 1 + 1, 1, 5⟩, rfl, ?_, ?_⟩
      · rw [dateLe_mk]
        omega
      · rw [dateLe_mk]
        omega
    · have hkey : cycle_key_from_date ⟨y, m, day⟩ = fmtKey y (m - 1) := by
        simp [cycle_key_from_date, CUTOFF_DAY, hd, hm1]
      rw [hkey,
        cycle_range_fmtKey y (m - 1) h1 h2 (by omega) (by omega)
          (by rintro ⟨-, hh⟩; omega),
        if_neg (by omega : ¬ m - 1 = 12)]
      refine ⟨⟨y, m - 1, 6⟩, ⟨y, m - 1 + 1, 5⟩, rfl, ?_, ?_⟩
      · rw [dateLe_mk]
        omega
      · rw [dateLe_mk]
        omega

/-- C5 counterexample: 9999-12-06 is a valid date, yet the range of its
own cycle key cannot be computed at all (the call raises), so the date
does not lie within that range. -/
theorem claim_c5_cex :
    Date.Valid ⟨9999, 12, 6⟩
    ∧ cycle_range_from_key (cycle_key_from_date ⟨9999, 12, 6⟩) = none := by
  exact ⟨by decide, by decide⟩

/-- C5 witness: 2026-02-03 lies within the range of its cycle key. -/
theorem claim_c5_witness :
    (Date.Valid ⟨2026, 2, 3⟩ ∧ dateLe ⟨1, 1, CUTOFF_DAY⟩ ⟨2026, 2, 3⟩
      ∧ dateLe ⟨2026, 2, 3⟩ ⟨9999, 12, CUTOFF_DAY - 1⟩)
    ∧ ∃ s e, cycle_range_from_key (cycle_key_from_date ⟨2026, 2, 3⟩) = some (s, e)
        ∧ dateLe s ⟨2026, 2, 3⟩ ∧ dateLe ⟨2026, 2, 3⟩ e :=
  ⟨by decide, claim_c5 ⟨2026, 2, 3⟩ (by decide) (by decide) (by decide)⟩

/-- C6 (amended): `shift_cycle_key "2026-01" (-1) = "2025-12"`, and for
every canonical key and integer offset `n` whose shifted month index
stays non-negative (`12y + (m-1) + n ≥ 0`), the round trip
`shift_cycle_key (shift_cycle_key k n) (-n) = k` holds.  (For more
negative `n` the inner shift renders a negative-year key such as
"-001-12" which the outer shift's key parsing rejects with ValueError.) -/
theorem claim_c6 :
    shift_cycle_key "2026-01" (-1) = some "2025-12"
    ∧ ∀ (y m : Nat) (n : Int), 1 ≤ m → m ≤ 12 →
        0 ≤ (y : Int) * 12 + ((m : Int) - 1) + n →
        (shift_cycle_key (fmtKey y m) n).bind (fun k => shift_cycle_key k (-n))
          = some (fmtKey y m) :=
  ⟨by decide, fun y m n hm1 hm2 htot => shift_roundtrip y m n hm1 hm2 htot⟩

/-- C6 counterexample: with k = "2026-01" and n = -24313 the inner shift
produces "-001-12" and the outer `shift_cycle_key _ 24313` fails (its
`key.split("-")` yields three pieces and the int unpacking raises), so
the round trip does not return "2026-01". -/
theorem claim_c6_cex :
    (shift_cycle_key "2026-01" (-24313)).bind (fun k => shift_cycle_key k (24313 : Int))
      ≠ some "2026-01" := by decide

/-- C6 witness: the round trip at k = "2026-01", n = -1. -/
theorem claim_c6_witness :
    ((1 : Nat) ≤ 1 ∧ (1 : Nat) ≤ 12
      ∧ 0 ≤ ((2026 : Nat) : Int) * 12 + (((1 : Nat) : Int) - 1) + (-1))
    ∧ (shift_cycle_key (fmtKey 2026 1) (-1)).bind (fun k => shift_cycle_key k (-(-1)))
        = some (fmtKey 2026 1) :=
  ⟨by decide, claim_c6.2 2026 1 (-1) (by decide) (by decide) (by decide)⟩

/-- C2: for every group, cycle key and non-empty timestamp `T` supplied
as `afterTimestamp`, `sum_cycle` sums by sign over exactly the group's
rows of that cycle whose `ts` is strictly greater than `T` — each such
row is selected iff `T < ts` — and with no `afterTimestamp` the sums
range over every row of that group and cycle.  (The non-emptiness of `T`
matches Python's `if after_ts:` truthiness test; stored timestamps are
never empty.) -/
theorem claim_c2 (txs : List TxRow) (chat : Int) (key T : String) (hT : T ≠ "") :
    cycleRows txs chat key (some T)
        = (cycleRows txs chat key none).filter (fun r => tsLt T r.ts)
    ∧ (∀ r, r ∈ cycleRows txs chat key (some T)
          ↔ r ∈ cycleRows txs chat key none ∧ tsLt T r.ts = true)
    ∧ sum_cycle txs chat key (some T)
        = sum_cycle (txs.filter (fun r => tsLt T r.ts)) chat key none
    ∧ cycleRows txs chat key none
        = txs.filter (fun r => r.chat_id == chat && r.cycle_key == key) := by
  refine ⟨cycleRows_some txs chat key T hT, ?_, ?_, cycleRows_none txs chat key⟩
  · intro r
    rw [cycleRows_some txs chat key T hT, List.mem_filter]
  · unfold sum_cycle
    rw [cycleRows_pre_filter txs chat key T hT]

/-- C2 witness: on a two-row ledger with timestamps "a" and "c" and the
floor "b", only the later row is summed. -/
theorem claim_c2_witness :
    ("b" : String) ≠ ""
    ∧ (cycleRows c2txs 1 "k" (some "b")
          = (cycleRows c2txs 1 "k" none).filter (fun r => tsLt "b" r.ts)
       ∧ (∀ r, r ∈ cycleRows c2txs 1 "k" (some "b")
             ↔ r ∈ cycleRows c2txs 1 "k" none ∧ tsLt "b" r.ts = true)
       ∧ sum_cycle c2txs 1 "k" (some "b")
           = sum_cycle (c2txs.filter (fun r => tsLt "b" r.ts)) 1 "k" none
       ∧ cycleRows c2txs 1 "k" none
           = c2txs.filter (fun r => r.chat_id == 1 && r.cycle_key == "k")) :=
  ⟨by decide, claim_c2 c2txs 1 "k" "b" (by decide)⟩

/-- C7: the entry parser takes an optional leading sign (`+` income,
absence or `-` expense), a free-text label, and a trailing integer amount
with grouping commas stripped; an empty label defaults to "-"; text with
no trailing amount, and command lines starting with `/`, are not
transactions.  Concretely: "coffee 50" is expense 50 "coffee",
"+ refund 1,200" is income 1200 "refund", and "hello" is ignored. -/
theorem claim_c7 :
    parse_tx "coffee 50" = some ⟨"-", 50, "coffee"⟩
    ∧ parse_tx "+ refund 1,200" = some ⟨"+", 1200, "refund"⟩
    ∧ parse_tx "hello" = none
    ∧ parse_tx "- rice 120" = some ⟨"-", 120, "rice"⟩
    ∧ parse_tx "+ 1,200" = some ⟨"+", 1200, "-"⟩
    ∧ (∀ text r, parse_tx text = some r →
        r.detail ≠ "" ∧ 0 ≤ r.amount ∧ (r.sign = "+" ∨ r.sign = "-"))
    ∧ (∀ text, (trimWs text.data).head? = some '/' → parse_tx text = none) := by
  refine ⟨by decide, by decide, by decide, by decide, by decide,
    fun text r h => parse_tx_sound text r h, ?_⟩
  intro text h
  unfold parse_tx
  rw [if_pos h]

/-- C7 witness: a parsed transaction with non-empty label, non-negative
amount, and a two-valued sign. -/
theorem claim_c7_witness :
    parse_tx "tea 5" = some ⟨"-", 5, "tea"⟩
    ∧ ((⟨"-", 5, "tea"⟩ : Tx).detail ≠ "" ∧ 0 ≤ (⟨"-", 5, "tea"⟩ : Tx).amount
        ∧ ((⟨"-", 5, "tea"⟩ : Tx).sign = "+" ∨ (⟨"-", 5, "tea"⟩ : Tx).sign = "-")) :=
  ⟨by decide, claim_c7.2.2.2.2.2.1 "tea 5" ⟨"-", 5, "tea"⟩ (by decide)⟩

/-- C8: appending a reset marker never changes the daily summary
(`sum_today`) or the daily listing (`list_today`) of any group and day —
they read only the transactions table — while the same marker does change
the cycle summary (witnessed on the concrete ledger `c8db`). -/
theorem claim_c8 :
    (∀ (db : DB) (chat : Int) (day : String) (marker : ResetRow),
        sum_today (appendReset db marker) chat day = sum_today db chat day
        ∧ list_today (appendReset db marker) chat day = list_today db chat day)
    ∧ month_balance c8db 1 "2026-01"
        ≠ month_balance (appendReset c8db c8marker) 1 "2026-01" :=
  ⟨fun _ _ _ _ => ⟨rfl, rfl⟩, by decide⟩

/-- C10 (amended): in both summary replies the net is income − expense
and may be negative; the daily reply displays it with an explicit leading
sign ('+' when net ≥ 0, '-' when net < 0), while the month reply renders
it with plain comma formatting — a leading '-' appears for negative
values but non-negative values carry no '+' sign. -/
theorem claim_c10 (income expense : Int) :
    (today_net_str income expense).data.head?
        = some (if 0 ≤ income - expense then '+' else '-')
    ∧ month_net_str income expense = fmt (income - expense)
    ∧ (income - expense < 0 → (month_net_str income expense).data.head? = some '-')
    ∧ (0 ≤ income - expense → (month_net_str income expense).data.head? ≠ some '+') := by
  refine ⟨?_, rfl, ?_, ?_⟩
  · unfold today_net_str
    by_cases h : 0 ≤ income - expense
    · rw [if_pos h, if_pos h]
      rfl
    · rw [if_neg h, if_neg h]
      rfl
  · intro h
    exact fmt_head_neg (income - expense) h
  · intro h
    exact fmt_head_not_plus (income - expense) h

/-- C10 counterexample: at income 5, expense 0 the net is non-negative,
the daily reply shows "+5", but the month reply shows plain "5" with no
explicit sign — refuting the claim that every summary reply displays the
net with an explicit sign. -/
theorem claim_c10_cex :
    month_net_str 5 0 = "5" ∧ (month_net_str 5 0).data.head? ≠ some '+'
    ∧ today_net_str 5 0 = "+5" := by decide

/-- C10 witness: the amended statement at income 5, expense 0. -/
theorem claim_c10_witness :
    (today_net_str 5 0).data.head? = some (if 0 ≤ (5 : Int) - 0 then '+' else '-')
    ∧ month_net_str 5 0 = fmt ((5 : Int) - 0)
    ∧ ((0 : Int) ≤ 5 - 0)
    ∧ (month_net_str 5 0).data.head? ≠ some '+' :=
  ⟨(claim_c10 5 0).1, (claim_c10 5 0).2.1, by decide, (claim_c10 5 0).2.2.2 (by decide)⟩

/-- C1: with a pending reset for (group, requester) and a message whose
stripped text equals the confirmation token: when `now` is within the
window, exactly one reset marker is appended — at the cycle computed from
the confirmation time — and the pending entry is removed, so an identical
second confirmation finds nothing pending, changes nothing and falls
through; when `now` is past the expiry, the pending entry is removed, the
lapsed window is reported, and no marker is appended. -/
theorem claim_c1 (st : BotState) (chat user : Int) (text text2 : String)
    (now later : PyDateTime) (p : ResetPending)
    (hpend : st.pending (chat, user) = some p)
    (htext : (⟨trimWs text.data⟩ : String) = RESET_CONFIRM_TEXT) :
    (now.secs ≤ p.expires_at.secs →
      ((confirm_reset_if_needed st chat user text now).1.db.resets
          = st.db.resets ++ [⟨chat, cycle_key_from_date now.dateV, now.iso⟩]
        ∧ (confirm_reset_if_needed st chat user text now).1.pending (chat, user) = none
        ∧ ((⟨trimWs text2.data⟩ : String) = RESET_CONFIRM_TEXT →
            confirm_reset_if_needed (confirm_reset_if_needed st chat user text now).1
                chat user text2 later
              = ((confirm_reset_if_needed st chat user text now).1,
                 .returned false none))))
    ∧ (p.expires_at.secs < now.secs →
        ((confirm_reset_if_needed st chat user text now).1.db.resets = st.db.resets
          ∧ (confirm_reset_if_needed st chat user text now).1.pending (chat, user) = none
          ∧ (confirm_reset_if_needed st chat user text now).2
              = .returned true (some .resetExpired))) := by
  constructor
  · intro hv
    have hst := confirm_valid_state st chat user text now p hpend htext hv
    refine ⟨?_, ?_, ?_⟩
    · rw [hst]
      rfl
    · rw [hst]
      simp
    · intro ht2
      refine confirm_nopending _ chat user text2 later ?_
      rw [hst]
      simp
  · intro hexp
    have hst := confirm_expired_eq st chat user text now p hpend htext hexp
    rw [hst]
    exact ⟨rfl, by simp, rfl⟩

/-- C1 witness: the concrete state `c1state` with a pending reset
expiring at instant 100, confirmed at instant 50. -/
theorem claim_c1_witness :
    (c1state.pending (1, 2) = some c1pend
      ∧ (⟨trimWs ("RESET" : String).data⟩ : String) = RESET_CONFIRM_TEXT
      ∧ c1now.secs ≤ c1pend.expires_at.secs)
    ∧ ((confirm_reset_if_needed c1state 1 2 "RESET" c1now).1.db.resets
          = c1state.db.resets ++ [⟨1, cycle_key_from_date c1now.dateV, c1now.iso⟩]
        ∧ (confirm_reset_if_needed c1state 1 2 "RESET" c1now).1.pending (1, 2) = none
        ∧ ((⟨trimWs ("RESET" : String).data⟩ : String) = RESET_CONFIRM_TEXT →
            confirm_reset_if_needed (confirm_reset_if_needed c1state 1 2 "RESET" c1now).1
                1 2 "RESET" c1later
              = ((confirm_reset_if_needed c1state 1 2 "RESET" c1now).1,
                 .returned false none))) :=
  ⟨⟨by decide, by decide, by decide⟩,
   (claim_c1 c1state 1 2 "RESET" "RESET" c1now c1later c1pend (by decide) (by decide)).1
     (by decide)⟩

/-- C9 (amended): whenever the current date's cycle range is
constructible (every date from 0001-01-06 through 9999-12-05), the reset
command unconditionally overwrites the (group, requester) pending entry —
whatever was there before, with no restart limit — with a fresh one whose
expiry instant is 60 seconds after `now`, touching no other key; and the
keyed-map state itself guarantees at most one pending reset per pair.
(On the few boundary dates outside that span, computing the prompt's
cycle range raises before the pending table is touched.) -/
theorem claim_c9 (st : BotState) (chat user : Int) (now : PyDateTime)
    (h : (cycle_range_from_key (cycle_key_from_date now.dateV)).isSome = true) :
    (reset_cmd st chat user now).1.pending (chat, user)
        = some ⟨chat, user, addSeconds now RESET_EXPIRE_SECONDS⟩
    ∧ (addSeconds now RESET_EXPIRE_SECONDS).secs = now.secs + 60
    ∧ (∀ k, k ≠ (chat, user) → (reset_cmd st chat user now).1.pending k = st.pending k)
    ∧ (reset_cmd st chat user now).2 = .returned true (some .resetPrompt) := by
  obtain ⟨rng, hrng⟩ := Option.isSome_iff_exists.mp h
  unfold reset_cmd
  simp only [hrng]
  refine ⟨by simp, by trivial, ?_, by trivial⟩
  intro k hk
  simp [hk]

/-- C9 counterexample: at instant 1000 on 9999-12-06 (with an old pending
entry expiring at instant 0 in place), `reset_cmd` raises while computing
the prompt's cycle range and leaves the stale entry in place instead of
unconditionally installing a fresh 60-second one. -/
theorem claim_c9_cex :
    (reset_cmd c9state 1 2 c9edgeNow).1.pending (1, 2) = some c9old
    ∧ c9old.expires_at.secs ≠ c9edgeNow.secs + 60
    ∧ (reset_cmd c9state 1 2 c9edgeNow).2 = .raised := by decide

/-- C9 witness: on an ordinary date the reset command replaces the
existing pending entry of `c9state` with a fresh one expiring 60 seconds
after `now`. -/
theorem claim_c9_witness :
    (cycle_range_from_key (cycle_key_from_date c9okNow.dateV)).isSome = true
    ∧ ((reset_cmd c9state 1 2 c9okNow).1.pending (1, 2)
          = some ⟨1, 2, addSeconds c9okNow RESET_EXPIRE_SECONDS⟩
        ∧ (addSeconds c9okNow RESET_EXPIRE_SECONDS).secs = c9okNow.secs + 60
        ∧ (∀ k, k ≠ ((1 : Int), (2 : Int)) →
            (reset_cmd c9state 1 2 c9okNow).1.pending k = c9state.pending k)
        ∧ (reset_cmd c9state 1 2 c9okNow).2 = .returned true (some .resetPrompt)) :=
  ⟨by decide, claim_c9 c9state 1 2 c9okNow (by decide)⟩

end ExpenseBot
